import Mathlib

set_option autoImplicit false

/-!
A shallow embedding of the `batch-tracker` indexer and its read-side
accounting aggregation, together with proofs about the embedded code.

Conventions of the embedding:

* Rust fixed-width unsigned integers (`u64`, `u128`, alloy `U256`) are
  embedded as `Nat` carrying their width bound explicitly.  Arithmetic that
  can panic (overflow, underflow, division by zero, failed `try_into` or
  `expect`) is modelled as a checked operation returning `Option`, with
  `none` standing for the panic / propagated error.
* Chain RPC lookups (block by number, historical balance) are modelled as
  explicit environment functions.
* The sqlite `batch` table is modelled as a list of rows, the `status`
  singleton as a record.
-/

namespace BatchTracker

def U64_MOD : Nat := 2 ^ 64
def U128_MOD : Nat := 2 ^ 128
def U256_MOD : Nat := 2 ^ 256
def I64_MOD : Nat := 2 ^ 63

/-- Checked addition below the width bound `m` (overflow panics). -/
def chkAdd (m a b : Nat) : Option Nat :=
  if a + b < m then some (a + b) else none

/-- Checked multiplication below the width bound `m` (overflow panics). -/
def chkMul (m a b : Nat) : Option Nat :=
  if a * b < m then some (a * b) else none

/-- Checked subtraction (underflow panics). -/
def chkSub (a b : Nat) : Option Nat :=
  if b ≤ a then some (a - b) else none

/-- Checked division (`a / b` panics when `b = 0`). -/
def chkDiv (a b : Nat) : Option Nat :=
  if b = 0 then none else some (a / b)

/-- A `try_into` conversion to a width bound `m`: succeeds iff the value fits. -/
def tryIntoBound (m a : Nat) : Option Nat :=
  if a < m then some a else none

/-! ## Checkpoint store (`status` table, `DataBase::update_status`) -/

/-- The singleton row of the `status` table (db.rs). -/
structure Status where
  indexed_l1_block : Nat
  proposed_batch_id : Nat
  proposed_block_id : Nat
  proved_batch_id : Nat
  proved_block_id : Nat
deriving Repr, DecidableEq

/-- One field of `DataBase::update_status` (db.rs:143-162): the argument is
applied only when it is non-zero; a non-zero argument additionally goes through
`try_into::<i64>`, whose failure is propagated as an error. -/
def updateField (cur arg : Nat) : Option Nat :=
  if arg ≠ 0 then tryIntoBound I64_MOD arg else some cur

/-- `DataBase::update_status` (db.rs:131-178).  Each of the five fields is
overwritten exactly when its argument is non-zero; with all arguments zero the
function returns early with `Ok(())` and no SQL is executed. -/
def update_status (st : Status) (indexed_l1_block proposed_batch_id proposed_block_id
    proved_batch_id proved_block_id : Nat) : Option Status :=
  match updateField st.indexed_l1_block indexed_l1_block,
        updateField st.proposed_batch_id proposed_batch_id,
        updateField st.proposed_block_id proposed_block_id,
        updateField st.proved_batch_id proved_batch_id,
        updateField st.proved_block_id proved_block_id with
  | some a, some b, some c, some d, some e => some ⟨a, b, c, d, e⟩
  | _, _, _, _, _ => none

theorem updateField_eq {cur arg v : Nat} (h : updateField cur arg = some v) :
    v = if arg = 0 then cur else arg := by
  unfold updateField tryIntoBound at h
  by_cases ha : arg = 0
  · simp [ha] at h
    simp [ha, h.symm]
  · simp [ha] at h
    simp [ha, ← h.2]

theorem update_status_fields {st st' : Status} {i pb pbl vb vbl : Nat}
    (h : update_status st i pb pbl vb vbl = some st') :
    st'.indexed_l1_block = (if i = 0 then st.indexed_l1_block else i) ∧
    st'.proposed_batch_id = (if pb = 0 then st.proposed_batch_id else pb) ∧
    st'.proposed_block_id = (if pbl = 0 then st.proposed_block_id else pbl) ∧
    st'.proved_batch_id = (if vb = 0 then st.proved_batch_id else vb) ∧
    st'.proved_block_id = (if vbl = 0 then st.proved_block_id else vbl) := by
  unfold update_status at h
  cases e1 : updateField st.indexed_l1_block i <;> rw [e1] at h
  case none => cases h
  cases e2 : updateField st.proposed_batch_id pb <;> rw [e2] at h
  case none => cases h
  cases e3 : updateField st.proposed_block_id pbl <;> rw [e3] at h
  case none => cases h
  cases e4 : updateField st.proved_batch_id vb <;> rw [e4] at h
  case none => cases h
  cases e5 : updateField st.proved_block_id vbl <;> rw [e5] at h
  case none => cases h
  cases h
  exact ⟨updateField_eq e1, updateField_eq e2, updateField_eq e3,
    updateField_eq e4, updateField_eq e5⟩

theorem le_ite_update {cur arg : Nat} (h : arg ≠ 0 → cur ≤ arg) :
    cur ≤ if arg = 0 then cur else arg := by
  by_cases ha : arg = 0
  · simp [ha]
  · simpa [ha] using h ha

/-- C5: in `update_status`, every field whose argument is the zero sentinel keeps
exactly its previous stored value, only the fields with non-zero arguments are
overwritten with the given values, and the all-sentinel call succeeds while
changing no stored field. -/
theorem checkpoint_sentinel_update (st st' : Status) (i pb pbl vb vbl : Nat)
    (h : update_status st i pb pbl vb vbl = some st') :
    (st'.indexed_l1_block = if i = 0 then st.indexed_l1_block else i) ∧
    (st'.proposed_batch_id = if pb = 0 then st.proposed_batch_id else pb) ∧
    (st'.proposed_block_id = if pbl = 0 then st.proposed_block_id else pbl) ∧
    (st'.proved_batch_id = if vb = 0 then st.proved_batch_id else vb) ∧
    (st'.proved_block_id = if vbl = 0 then st.proved_block_id else vbl) ∧
    update_status st 0 0 0 0 0 = some st := by
  refine ⟨(update_status_fields h).1, (update_status_fields h).2.1,
    (update_status_fields h).2.2.1, (update_status_fields h).2.2.2.1,
    (update_status_fields h).2.2.2.2, ?_⟩
  simp [update_status, updateField]

theorem checkpoint_sentinel_update_witness :
    ((⟨7, 2, 9, 4, 11⟩ : Status).indexed_l1_block =
      if (7 : Nat) = 0 then (⟨1, 2, 3, 4, 5⟩ : Status).indexed_l1_block else 7) ∧
    ((⟨7, 2, 9, 4, 11⟩ : Status).proposed_batch_id =
      if (0 : Nat) = 0 then (⟨1, 2, 3, 4, 5⟩ : Status).proposed_batch_id else 0) :=
  ⟨(checkpoint_sentinel_update ⟨1, 2, 3, 4, 5⟩ ⟨7, 2, 9, 4, 11⟩ 7 0 9 0 11 (by decide)).1,
   (checkpoint_sentinel_update ⟨1, 2, 3, 4, 5⟩ ⟨7, 2, 9, 4, 11⟩ 7 0 9 0 11 (by decide)).2.1⟩

/-- C4 counterexample: a successful `update_status` call can strictly decrease a
stored checkpoint field — with `indexed_l1_block` stored as 100, the call with
argument 50 succeeds and leaves the stored value 50 < 100, refuting unconditional
monotonicity. -/
theorem checkpoint_monotone_cex :
    update_status ⟨100, 100, 100, 100, 100⟩ 50 0 0 0 0 = some ⟨50, 100, 100, 100, 100⟩ ∧
    (⟨50, 100, 100, 100, 100⟩ : Status).indexed_l1_block <
      (⟨100, 100, 100, 100, 100⟩ : Status).indexed_l1_block := by
  decide

/-- C4 (amended): each stored checkpoint field is either kept (zero argument) or
overwritten by its argument, so the five fields are non-decreasing across a
successful update provided every non-sentinel argument is at least the stored
value it replaces. -/
theorem checkpoint_monotone (st st' : Status) (i pb pbl vb vbl : Nat)
    (h : update_status st i pb pbl vb vbl = some st')
    (hi : i ≠ 0 → st.indexed_l1_block ≤ i)
    (hpb : pb ≠ 0 → st.proposed_batch_id ≤ pb)
    (hpbl : pbl ≠ 0 → st.proposed_block_id ≤ pbl)
    (hvb : vb ≠ 0 → st.proved_batch_id ≤ vb)
    (hvbl : vbl ≠ 0 → st.proved_block_id ≤ vbl) :
    st.indexed_l1_block ≤ st'.indexed_l1_block ∧
    st.proposed_batch_id ≤ st'.proposed_batch_id ∧
    st.proposed_block_id ≤ st'.proposed_block_id ∧
    st.proved_batch_id ≤ st'.proved_batch_id ∧
    st.proved_block_id ≤ st'.proved_block_id := by
  obtain ⟨h1, h2, h3, h4, h5⟩ := update_status_fields h
  rw [h1, h2, h3, h4, h5]
  exact ⟨le_ite_update hi, le_ite_update hpb, le_ite_update hpbl,
    le_ite_update hvb, le_ite_update hvbl⟩

theorem checkpoint_monotone_witness :
    (⟨1, 2, 3, 4, 5⟩ : Status).indexed_l1_block ≤
      (⟨10, 2, 12, 4, 14⟩ : Status).indexed_l1_block :=
  (checkpoint_monotone ⟨1, 2, 3, 4, 5⟩ ⟨10, 2, 12, 4, 14⟩ 10 0 12 0 14 (by decide)
    (by decide) (by decide) (by decide) (by decide) (by decide)).1

/-! ## Batch repository (`batch` table, db.rs) and chain environment -/

/-- One row of the `batch` table (db.rs `struct Batch`).  Rust `i64`/`u64`
columns hold the non-negative chain values, embedded as `Nat`; `TEXT` fee
columns stay strings. -/
structure Batch where
  batch_id : Nat
  sender : String
  proposer : String
  coinbase : String
  propose_tx : String
  proposed_at : Nat
  last_block_id : Nat
  block_count : Nat
  propose_fee : String
  l2_fee_earned : Option String
  prover : Option String
  prove_tx : Option String
  prove_fee : Option String
  is_sent_by_proposer : Bool
  is_profitable : Option Bool
  is_proved_by_proposer : Option Bool
deriving Repr, DecidableEq

/-- A transaction receipt as consumed by the indexer (the fields of
`alloy::rpc::types::TransactionReceipt` that the code reads).  `sender` is the
receipt's `from` address, rendered as a string. -/
structure TransactionReceipt where
  gas_used : Nat
  effective_gas_price : Nat
  blob_gas_used : Option Nat
  blob_gas_price : Option Nat
  sender : String
  block_number : Option Nat
deriving Repr, DecidableEq

/-- An L1 block header (only the timestamp is consumed, via
`block.header.inner.timestamp`). -/
structure L1Block where
  timestamp : Nat
deriving Repr, DecidableEq

/-- The chain RPC environment: L1 block lookup by number and L2 historical
balance lookup (`get_balance(addr).block_id(h)`), both assumed to answer;
an absent L1 block is `none` (the code panics on it). -/
structure ChainEnv where
  blockByNumber : Nat → Option L1Block
  balanceAt : String → Nat → Nat

/-- `BatchIndexer::get_tx_eth_price` (batch_indexer.rs:284-294):
`gas_used * effective_gas_price + blob_gas_used * blob_gas_price`, all in
`u128`, with absent blob fields defaulted to 0. -/
def get_tx_eth_price (receipt : TransactionReceipt) : Option Nat := do
  let gas_used := receipt.gas_used
  let gas_price := receipt.effective_gas_price
  let blob_gas_used := receipt.blob_gas_used.getD 0
  let blob_gas_price := receipt.blob_gas_price.getD 0
  let execution_fee ← chkMul U128_MOD gas_used gas_price
  let blob_fee ← chkMul U128_MOD blob_gas_used blob_gas_price
  chkAdd U128_MOD execution_fee blob_fee

/-- `BatchIndexer::get_prover` (batch_indexer.rs:262-282): the block holding the
prove transaction is fetched; strictly after `proposed_at + proving_window` the
prover is the prove transaction's sender, otherwise the propose sender passed in
(`batch.sender` at the call site).  `none` models the panic on a missing block. -/
def get_prover (env : ChainEnv) (proving_window : Nat)
    (prove_sender propose_sender : String) (prove_block proposed_at : Nat) :
    Option String :=
  match env.blockByNumber prove_block with
  | some block =>
      if block.timestamp > proposed_at + proving_window then some prove_sender
      else some propose_sender
  | none => none

/-- `BatchIndexer::calculate_l2_fee_earned` (batch_indexer.rs:237-260): the
coinbase balance at `last_block_number` minus its balance at
`last_block_number - block_count`, with the `u64` range subtraction, the `U256`
balance subtraction and the final `try_into::<u128>` all checked. -/
def calculate_l2_fee_earned (env : ChainEnv) (coinbase_address : String)
    (last_block_number block_count : Nat) : Option Nat := do
  let start_block ← chkSub last_block_number block_count
  let balance_before := env.balanceAt coinbase_address start_block
  let balance_after := env.balanceAt coinbase_address last_block_number
  let diff ← chkSub balance_after balance_before
  tryIntoBound U128_MOD diff

/-- Decimal string parse below a width bound (`str::parse::<u128>` /
`U256::from_str_radix(s, 10)`): digits only, non-empty, value must fit. -/
def parseDecimal (m : Nat) (s : String) : Option Nat :=
  if s.data ≠ [] ∧ s.data.all Char.isDigit then
    tryIntoBound m (s.data.foldl (fun n c => n * 10 + (c.toNat - 48)) 0)
  else none

/-- `DataBase::get_batch_by_id` (db.rs:231-247): the row with the given id. -/
def get_batch_by_id (db : List Batch) (batch_id : Nat) : Option Batch :=
  db.find? (fun b => b.batch_id == batch_id)

/-- The six proof columns written by `DataBase::update_batch` (db.rs:249-273),
applied to a matching row. -/
def overwrite_proof_fields (r b : Batch) : Batch :=
  { r with l2_fee_earned := b.l2_fee_earned, prover := b.prover,
           prove_tx := b.prove_tx, prove_fee := b.prove_fee,
           is_profitable := b.is_profitable,
           is_proved_by_proposer := b.is_proved_by_proposer }

/-- `DataBase::update_batch` (db.rs:249-273): `UPDATE batch SET … WHERE
batch_id = ?` — rewrites the six proof columns of the rows with that id and is
a silent no-op when the id is absent. -/
def update_batch (db : List Batch) (b : Batch) : List Batch :=
  db.map (fun r => if r.batch_id == b.batch_id then overwrite_proof_fields r b else r)

/-! ## Proof processor (`BatchIndexer::index_batch_proved`) -/

/-- A decoded `BatchesProved` log together with the receipt of its transaction
(the receipt fetch itself is assumed answered; its absent `block_number` is the
in-loop `expect`). -/
structure BatchesProvedLog where
  batchIds : List Nat
  tx_hash : String
  receipt : TransactionReceipt
deriving Repr, DecidableEq

/-- The body of the inner `for batch_id in batches.inner.batchIds` loop of
`index_batch_proved` (batch_indexer.rs:194-232), acting on the accumulated
`(db, proved_batch_id, proved_block_id)`.  An absent batch id is logged and
skipped; every other failure (`expect`, panic, `?`) is `none`. -/
def process_proved_batch (env : ChainEnv) (proving_window : Nat)
    (receipt : TransactionReceipt) (tx_hash : String) (prove_fee : Nat)
    (acc : List Batch × Nat × Nat) (batch_id : Nat) :
    Option (List Batch × Nat × Nat) :=
  match get_batch_by_id acc.1 batch_id with
  | none => some acc
  | some batch => do
      let proved_batch_id := max acc.2.1 batch_id
      let proved_block_id := max acc.2.2 batch.last_block_id
      let receipt_block ← receipt.block_number
      let prover ← get_prover env proving_window receipt.sender batch.sender
        receipt_block batch.proposed_at
      let l2_fee_earned ← calculate_l2_fee_earned env batch.coinbase
        batch.last_block_id batch.block_count
      let propose_fee ← parseDecimal U128_MOD batch.propose_fee
      let threshold ← chkAdd U128_MOD prove_fee propose_fee
      let batch' := { batch with
        prove_tx := some tx_hash
        prove_fee := some (Nat.repr prove_fee)
        is_proved_by_proposer := some (prover == batch.proposer)
        prover := some prover
        l2_fee_earned := some (Nat.repr l2_fee_earned)
        is_profitable := some (decide (l2_fee_earned > threshold)) }
      some (update_batch acc.1 batch', proved_batch_id, proved_block_id)

/-- The inner loop of `index_batch_proved` over the event's batch ids. -/
def process_proved_ids (env : ChainEnv) (proving_window : Nat)
    (receipt : TransactionReceipt) (tx_hash : String) (prove_fee : Nat) :
    List Batch × Nat × Nat → List Nat → Option (List Batch × Nat × Nat)
  | acc, [] => some acc
  | acc, batch_id :: rest => do
      let acc' ← process_proved_batch env proving_window receipt tx_hash prove_fee acc batch_id
      process_proved_ids env proving_window receipt tx_hash prove_fee acc' rest

/-- One iteration of the outer `for log in logs` loop of `index_batch_proved`
(batch_indexer.rs:181-233): total fee of the prove transaction, divided by the
number of proved batch ids, then the per-batch updates. -/
def process_proved_log (env : ChainEnv) (proving_window : Nat)
    (acc : List Batch × Nat × Nat) (log : BatchesProvedLog) :
    Option (List Batch × Nat × Nat) := do
  let price ← get_tx_eth_price log.receipt
  let prove_fee ← chkDiv price log.batchIds.length
  process_proved_ids env proving_window log.receipt log.tx_hash prove_fee acc log.batchIds

/-- The outer `for log in logs` fold of `index_batch_proved`. -/
def index_batch_proved_go (env : ChainEnv) (proving_window : Nat)
    (acc : List Batch × Nat × Nat) :
    List BatchesProvedLog → Option (List Batch × Nat × Nat)
  | [] => some acc
  | log :: rest => do
      let acc' ← process_proved_log env proving_window acc log
      index_batch_proved_go env proving_window acc' rest

/-- `BatchIndexer::index_batch_proved` over the decoded logs of a block range,
starting from `(db, 0, 0)` (batch_indexer.rs:178-234). -/
def index_batch_proved (env : ChainEnv) (proving_window : Nat)
    (db : List Batch) (logs : List BatchesProvedLog) :
    Option (List Batch × Nat × Nat) :=
  index_batch_proved_go env proving_window (db, 0, 0) logs

/-! ## Helper lemmas on the checked operations and the repository -/

theorem chkAdd_some {m a b c : Nat} (h : chkAdd m a b = some c) :
    c = a + b ∧ a + b < m := by
  unfold chkAdd at h
  split at h
  · exact ⟨(Option.some.inj h).symm, by assumption⟩
  · cases h

theorem chkSub_some {a b c : Nat} (h : chkSub a b = some c) :
    c = a - b ∧ b ≤ a := by
  unfold chkSub at h
  split at h
  · exact ⟨(Option.some.inj h).symm, by assumption⟩
  · cases h

theorem chkDiv_some {a b c : Nat} (h : chkDiv a b = some c) :
    c = a / b ∧ b ≠ 0 := by
  unfold chkDiv at h
  split at h
  · cases h
  · exact ⟨(Option.some.inj h).symm, by assumption⟩

theorem tryIntoBound_some {m a c : Nat} (h : tryIntoBound m a = some c) :
    c = a ∧ a < m := by
  unfold tryIntoBound at h
  split at h
  · exact ⟨(Option.some.inj h).symm, by assumption⟩
  · cases h

theorem batch_id_overwrite (r b : Batch) :
    (overwrite_proof_fields r b).batch_id = r.batch_id := rfl

theorem get_batch_by_id_eq {db : List Batch} {i : Nat} {b : Batch}
    (h : get_batch_by_id db i = some b) : b.batch_id = i := by
  unfold get_batch_by_id at h
  simpa using List.find?_some h

theorem get_batch_by_id_update_batch (db : List Batch) (b : Batch) (i : Nat) :
    get_batch_by_id (update_batch db b) i =
      (get_batch_by_id db i).map
        (fun r => if r.batch_id == b.batch_id then overwrite_proof_fields r b else r) := by
  unfold get_batch_by_id update_batch
  rw [List.find?_map]
  have hpf : ((fun x : Batch => x.batch_id == i) ∘
      (fun r => if r.batch_id == b.batch_id then overwrite_proof_fields r b else r)) =
      (fun x : Batch => x.batch_id == i) := by
    funext r
    simp only [Function.comp_apply]
    split <;> rfl
  rw [hpf]

theorem get_batch_by_id_update_batch_other {db : List Batch} {b : Batch} {i : Nat}
    (h : i ≠ b.batch_id) :
    get_batch_by_id (update_batch db b) i = get_batch_by_id db i := by
  rw [get_batch_by_id_update_batch]
  cases hg : get_batch_by_id db i with
  | none => rfl
  | some r =>
      have hr : r.batch_id = i := get_batch_by_id_eq hg
      have hne : ¬ ((r.batch_id == b.batch_id) = true) := by
        simp [hr, h]
      simp [Option.map, hne]

theorem get_batch_by_id_update_batch_self {db : List Batch} {b r : Batch}
    (h : get_batch_by_id db b.batch_id = some r) :
    get_batch_by_id (update_batch db b) b.batch_id = some (overwrite_proof_fields r b) := by
  rw [get_batch_by_id_update_batch, h]
  have hr : (r.batch_id == b.batch_id) = true := by
    simp [get_batch_by_id_eq h]
  simp [Option.map, hr]

theorem get_batch_by_id_update_batch_none {db : List Batch} {b : Batch} {i : Nat}
    (h : get_batch_by_id db i = none) :
    get_batch_by_id (update_batch db b) i = none := by
  rw [get_batch_by_id_update_batch, h]
  rfl

theorem process_proved_batch_absent (env : ChainEnv) (W : Nat)
    (receipt : TransactionReceipt) (tx : String) (fee : Nat)
    (acc : List Batch × Nat × Nat) (id : Nat)
    (hget : get_batch_by_id acc.1 id = none) :
    process_proved_batch env W receipt tx fee acc id = some acc := by
  unfold process_proved_batch
  rw [hget]

/-- Decomposition of a successful per-batch step on a present row: every
intermediate lookup succeeded and the new table is `update_batch` with the row
carrying the six freshly computed proof fields. -/
theorem process_proved_batch_present {env : ChainEnv} {W : Nat}
    {receipt : TransactionReceipt} {tx : String} {fee : Nat}
    {db db' : List Batch} {a b a' b' : Nat} {id : Nat} {batch : Batch}
    (hget : get_batch_by_id db id = some batch)
    (hstep : process_proved_batch env W receipt tx fee (db, a, b) id = some (db', a', b')) :
    ∃ rb prover l2 pf,
      receipt.block_number = some rb ∧
      get_prover env W receipt.sender batch.sender rb batch.proposed_at = some prover ∧
      calculate_l2_fee_earned env batch.coinbase batch.last_block_id batch.block_count
        = some l2 ∧
      parseDecimal U128_MOD batch.propose_fee = some pf ∧
      fee + pf < U128_MOD ∧
      db' = update_batch db { batch with
        prove_tx := some tx
        prove_fee := some (Nat.repr fee)
        is_proved_by_proposer := some (prover == batch.proposer)
        prover := some prover
        l2_fee_earned := some (Nat.repr l2)
        is_profitable := some (decide (l2 > fee + pf)) } ∧
      a' = max a id ∧ b' = max b batch.last_block_id := by
  unfold process_proved_batch at hstep
  rw [hget] at hstep
  dsimp only at hstep
  cases hrb : receipt.block_number with
  | none => simp [hrb] at hstep
  | some rb =>
  rw [hrb] at hstep
  simp only [Option.bind_eq_bind, Option.some_bind] at hstep
  cases hprover : get_prover env W receipt.sender batch.sender rb batch.proposed_at with
  | none => simp [hprover] at hstep
  | some prover =>
  rw [hprover] at hstep
  simp only [Option.some_bind] at hstep
  cases hl2 : calculate_l2_fee_earned env batch.coinbase batch.last_block_id
      batch.block_count with
  | none => simp [hl2] at hstep
  | some l2 =>
  rw [hl2] at hstep
  simp only [Option.some_bind] at hstep
  cases hpf : parseDecimal U128_MOD batch.propose_fee with
  | none => simp [hpf] at hstep
  | some pf =>
  rw [hpf] at hstep
  simp only [Option.some_bind] at hstep
  cases hthr : chkAdd U128_MOD fee pf with
  | none => simp [hthr] at hstep
  | some thr =>
  rw [hthr] at hstep
  simp only [Option.some_bind] at hstep
  obtain ⟨hthr', hbound⟩ := chkAdd_some hthr
  subst hthr'
  simp only [Option.some.injEq, Prod.mk.injEq] at hstep
  refine ⟨rb, prover, l2, pf, ?_, ?_, ?_, ?_, hbound,
    hstep.1.symm, hstep.2.1.symm, hstep.2.2.symm⟩ <;> first | rfl | assumption

/-! ## Concrete instances for closed evaluations -/

/-- A concrete chain environment: every L1 block has timestamp 150 and the L2
balance of any address at height `h` is `h`. -/
def cexEnv : ChainEnv := ⟨fun _ => some ⟨150⟩, fun _ h => h⟩

/-- A concrete proposed batch whose proposal transaction sender "0xA" differs
from its declared proposer "0xB". -/
def cexBatch : Batch :=
  ⟨1, "0xA", "0xB", "0xC", "0xPTX", 100, 50, 5, "10", none, none, none, none,
    false, none, none⟩

def cexReceipt : TransactionReceipt := ⟨1, 1, none, none, "0xP", some 7⟩

/-- `cexBatch` after the proof processor handled it with proof-fee share 3 in
the environment above. -/
def cexProvedBatch : Batch :=
  ⟨1, "0xA", "0xB", "0xC", "0xPTX", 100, 50, 5, "10", some "5", some "0xA",
    some "0xTX", some "3", false, some false, some false⟩

/-- C1 counterexample: an in-window proof (block timestamp 150, not greater
than `proposed_at + proving_window = 1100`) stores as prover the batch's
proposal transaction sender "0xA", which differs from the declared proposer
"0xB" — so the in-window branch does not attribute to the original proposer. -/
theorem prover_attribution_cex :
    process_proved_batch cexEnv 1000 cexReceipt "0xTX" 3 ([cexBatch], 0, 0) 1 =
      some ([cexProvedBatch], 1, 50) ∧
    cexEnv.blockByNumber 7 = some ⟨150⟩ ∧
    cexReceipt.block_number = some 7 ∧
    ¬ ((150 : Nat) > cexBatch.proposed_at + 1000) ∧
    cexProvedBatch.prover = some cexBatch.sender ∧
    cexProvedBatch.prover ≠ some cexBatch.proposer := by
  decide

/-- C1 (amended): the stored prover is decided by the timing rule with the
proposal transaction's sender as the in-window attribution: strictly after
`proposed_at + proving_window` the prover is the proof transaction's sender,
otherwise (equality included) it is the batch's `sender` column — the sender of
the proposal transaction, not the declared proposer. -/
theorem prover_attribution (env : ChainEnv) (W : Nat) (receipt : TransactionReceipt)
    (tx : String) (fee : Nat) (db : List Batch) (a b id : Nat) (batch : Batch)
    (db' : List Batch) (a' b' rb : Nat) (block : L1Block)
    (hget : get_batch_by_id db id = some batch)
    (hstep : process_proved_batch env W receipt tx fee (db, a, b) id = some (db', a', b'))
    (hrb : receipt.block_number = some rb)
    (hblock : env.blockByNumber rb = some block) :
    ∃ batch', get_batch_by_id db' id = some batch' ∧
      batch'.prover = some (if block.timestamp > batch.proposed_at + W
        then receipt.sender else batch.sender) := by
  obtain ⟨rb', prover, l2, pf, hrb', hprover, hl2, hpf, hbound, hdb, ha, hb2⟩ :=
    process_proved_batch_present hget hstep
  rw [hrb] at hrb'
  have hrbe : rb = rb' := Option.some.inj hrb'
  subst hrbe
  have hpv : prover = if block.timestamp > batch.proposed_at + W then receipt.sender
      else batch.sender := by
    unfold get_prover at hprover
    rw [hblock] at hprover
    dsimp only at hprover
    by_cases hc : block.timestamp > batch.proposed_at + W
    · rw [if_pos hc] at hprover ⊢
      exact (Option.some.inj hprover).symm
    · rw [if_neg hc] at hprover ⊢
      exact (Option.some.inj hprover).symm
  subst hdb
  have hid : batch.batch_id = id := get_batch_by_id_eq hget
  rw [← hid] at hget ⊢
  refine ⟨_, get_batch_by_id_update_batch_self hget, ?_⟩
  exact congrArg some hpv

theorem prover_attribution_witness :
    ∃ batch', get_batch_by_id [cexProvedBatch] 1 = some batch' ∧
      batch'.prover = some (if (150 : Nat) > cexBatch.proposed_at + 1000
        then cexReceipt.sender else cexBatch.sender) :=
  prover_attribution cexEnv 1000 cexReceipt "0xTX" 3 [cexBatch] 0 0 1 cexBatch
    [cexProvedBatch] 1 50 7 ⟨150⟩ (by decide) (by decide) (by decide) (by decide)

/-- C7: after a successful per-batch proof step, the stored `is_profitable`
flag is exactly the unsigned comparison of the value whose decimal rendering is
stored in `l2_fee_earned` against the sum of the stored proof-fee share and the
parsed stored `propose_fee`. -/
theorem is_profitable_correct (env : ChainEnv) (W : Nat) (receipt : TransactionReceipt)
    (tx : String) (fee : Nat) (db : List Batch) (a b id : Nat) (batch : Batch)
    (db' : List Batch) (a' b' : Nat)
    (hget : get_batch_by_id db id = some batch)
    (hstep : process_proved_batch env W receipt tx fee (db, a, b) id = some (db', a', b')) :
    ∃ batch' l2 pf,
      get_batch_by_id db' id = some batch' ∧
      batch'.l2_fee_earned = some (Nat.repr l2) ∧
      batch'.prove_fee = some (Nat.repr fee) ∧
      parseDecimal U128_MOD batch'.propose_fee = some pf ∧
      fee + pf < U128_MOD ∧
      batch'.is_profitable = some (decide (l2 > fee + pf)) := by
  obtain ⟨rb, prover, l2, pf, hrb, hprover, hl2, hpf, hbound, hdb, ha, hb2⟩ :=
    process_proved_batch_present hget hstep
  subst hdb
  have hid : batch.batch_id = id := get_batch_by_id_eq hget
  rw [← hid] at hget ⊢
  exact ⟨_, l2, pf, get_batch_by_id_update_batch_self hget, rfl, rfl, hpf, hbound, rfl⟩

theorem is_profitable_correct_witness :
    ∃ batch' l2 pf,
      get_batch_by_id [cexProvedBatch] 1 = some batch' ∧
      batch'.l2_fee_earned = some (Nat.repr l2) ∧
      batch'.prove_fee = some (Nat.repr 3) ∧
      parseDecimal U128_MOD batch'.propose_fee = some pf ∧
      3 + pf < U128_MOD ∧
      batch'.is_profitable = some (decide (l2 > 3 + pf)) :=
  is_profitable_correct cexEnv 1000 cexReceipt "0xTX" 3 [cexBatch] 0 0 1 cexBatch
    [cexProvedBatch] 1 50 (by decide) (by decide)

/-- C8: the stored `l2_fee_earned` of a proved batch is the L2 balance of the
batch's coinbase at `last_block_id` minus its balance at
`last_block_id - block_count`, rendered in decimal; a successful step moreover
certifies that the block span and the balance difference did not underflow. -/
theorem l2_fee_earned_stored (env : ChainEnv) (W : Nat) (receipt : TransactionReceipt)
    (tx : String) (fee : Nat) (db : List Batch) (a b id : Nat) (batch : Batch)
    (db' : List Batch) (a' b' : Nat)
    (hget : get_batch_by_id db id = some batch)
    (hstep : process_proved_batch env W receipt tx fee (db, a, b) id = some (db', a', b')) :
    ∃ batch',
      get_batch_by_id db' id = some batch' ∧
      batch.block_count ≤ batch.last_block_id ∧
      env.balanceAt batch.coinbase (batch.last_block_id - batch.block_count) ≤
        env.balanceAt batch.coinbase batch.last_block_id ∧
      batch'.l2_fee_earned = some (Nat.repr
        (env.balanceAt batch.coinbase batch.last_block_id -
         env.balanceAt batch.coinbase (batch.last_block_id - batch.block_count))) := by
  obtain ⟨rb, prover, l2, pf, hrb, hprover, hl2, hpf, hbound, hdb, ha, hb2⟩ :=
    process_proved_batch_present hget hstep
  unfold calculate_l2_fee_earned at hl2
  dsimp only at hl2
  cases hs : chkSub batch.last_block_id batch.block_count with
  | none => rw [hs] at hl2; simp at hl2
  | some start =>
  rw [hs] at hl2
  simp only [Option.bind_eq_bind, Option.some_bind] at hl2
  cases hd : chkSub (env.balanceAt batch.coinbase batch.last_block_id)
      (env.balanceAt batch.coinbase start) with
  | none => rw [hd] at hl2; simp at hl2
  | some diff =>
  rw [hd] at hl2
  simp only [Option.some_bind] at hl2
  obtain ⟨hstart, hcle⟩ := chkSub_some hs
  obtain ⟨hdiff, hmono⟩ := chkSub_some hd
  obtain ⟨hl2e, hfit⟩ := tryIntoBound_some hl2
  subst hstart
  subst hdiff
  subst hl2e
  subst hdb
  have hid : batch.batch_id = id := get_batch_by_id_eq hget
  rw [← hid] at hget ⊢
  exact ⟨_, get_batch_by_id_update_batch_self hget, hcle, hmono, rfl⟩

/-- Environment for the spec scenario: the coinbase balance is `5×10^18` at
block 1000 and 0 at every other height. -/
def scenEnv : ChainEnv :=
  ⟨fun _ => some ⟨150⟩, fun _ h => if h = 1000 then 5000000000000000000 else 0⟩

/-- A batch spanning blocks 901..1000 (`last_block_id = 1000`,
`block_count = 100`). -/
def scenBatch : Batch :=
  ⟨2, "0xA", "0xB", "0xC", "0xPTX", 100, 1000, 100, "10", none, none, none, none,
    false, none, none⟩

/-- `scenBatch` after the proof processor handled it with proof-fee share 3 in
`scenEnv`. -/
def scenProvedBatch : Batch :=
  ⟨2, "0xA", "0xB", "0xC", "0xPTX", 100, 1000, 100, "10",
    some "5000000000000000000", some "0xA", some "0xTX", some "3", false,
    some true, some false⟩

theorem l2_fee_earned_stored_witness :
    (∃ batch',
      get_batch_by_id [scenProvedBatch] 2 = some batch' ∧
      scenBatch.block_count ≤ scenBatch.last_block_id ∧
      scenEnv.balanceAt scenBatch.coinbase (scenBatch.last_block_id - scenBatch.block_count) ≤
        scenEnv.balanceAt scenBatch.coinbase scenBatch.last_block_id ∧
      batch'.l2_fee_earned = some (Nat.repr
        (scenEnv.balanceAt scenBatch.coinbase scenBatch.last_block_id -
         scenEnv.balanceAt scenBatch.coinbase
           (scenBatch.last_block_id - scenBatch.block_count)))) ∧
    scenEnv.balanceAt scenBatch.coinbase 1000 -
      scenEnv.balanceAt scenBatch.coinbase 900 = 5000000000000000000 ∧
    Nat.repr 5000000000000000000 = "5000000000000000000" :=
  ⟨l2_fee_earned_stored scenEnv 1000 cexReceipt "0xTX" 3 [scenBatch] 0 0 2 scenBatch
    [scenProvedBatch] 2 1000 (by decide) (by decide), by decide, by decide⟩

/-- Shape of a successful per-batch step: either the id was absent and the
table is untouched, or the table is `update_batch` with a row whose stored
proof-fee share is the decimal rendering of `fee` — and the row now found at
the id carries that share. -/
theorem process_proved_batch_shape {env : ChainEnv} {W : Nat}
    {receipt : TransactionReceipt} {tx : String} {fee : Nat}
    {db db' : List Batch} {a b a' b' id : Nat}
    (hstep : process_proved_batch env W receipt tx fee (db, a, b) id = some (db', a', b')) :
    (get_batch_by_id db id = none ∧ db' = db) ∨
    (∃ B, B.prove_fee = some (Nat.repr fee) ∧ db' = update_batch db B ∧
      ∃ r, get_batch_by_id db' id = some r ∧ r.prove_fee = some (Nat.repr fee)) := by
  cases hget : get_batch_by_id db id with
  | none =>
      rw [process_proved_batch_absent env W receipt tx fee (db, a, b) id hget] at hstep
      obtain ⟨h1, -, -⟩ := Prod.mk.injEq .. ▸ Option.some.inj hstep
      exact Or.inl ⟨by first | exact hget | rfl, h1.symm⟩
  | some batch =>
      obtain ⟨rb, prover, l2, pf, hrb, hprover, hl2, hpf, hbound, hdb, ha, hb2⟩ :=
        process_proved_batch_present hget hstep
      refine Or.inr ?_
      set B : Batch := { batch with
        prove_tx := some tx
        prove_fee := some (Nat.repr fee)
        is_proved_by_proposer := some (prover == batch.proposer)
        prover := some prover
        l2_fee_earned := some (Nat.repr l2)
        is_profitable := some (decide (l2 > fee + pf)) } with hB
      have hBid : B.batch_id = id := by
        have hx := get_batch_by_id_eq hget
        rw [hB]
        exact hx
      have hget' : get_batch_by_id db B.batch_id = some batch := by
        rw [hBid]; exact hget
      have hself := get_batch_by_id_update_batch_self hget'
      rw [hBid] at hself
      refine ⟨B, rfl, hdb, overwrite_proof_fields batch B, ?_, rfl⟩
      rw [hdb]
      exact hself

theorem process_proved_batch_none {env : ChainEnv} {W : Nat}
    {receipt : TransactionReceipt} {tx : String} {fee : Nat}
    {db db' : List Batch} {a b a' b' id j : Nat}
    (hstep : process_proved_batch env W receipt tx fee (db, a, b) id = some (db', a', b'))
    (hj : get_batch_by_id db j = none) :
    get_batch_by_id db' j = none := by
  rcases process_proved_batch_shape hstep with ⟨-, rfl⟩ | ⟨B, -, rfl, -⟩
  · exact hj
  · exact get_batch_by_id_update_batch_none hj

theorem process_proved_batch_fee_pres {env : ChainEnv} {W : Nat}
    {receipt : TransactionReceipt} {tx : String} {fee : Nat}
    {db db' : List Batch} {a b a' b' id j : Nat} {r : Batch}
    (hstep : process_proved_batch env W receipt tx fee (db, a, b) id = some (db', a', b'))
    (hj : get_batch_by_id db j = some r)
    (hr : r.prove_fee = some (Nat.repr fee)) :
    ∃ r', get_batch_by_id db' j = some r' ∧ r'.prove_fee = some (Nat.repr fee) := by
  rcases process_proved_batch_shape hstep with ⟨-, rfl⟩ | ⟨B, hB, rfl, -⟩
  · exact ⟨r, hj, hr⟩
  · rw [get_batch_by_id_update_batch, hj]
    by_cases hc : (r.batch_id == B.batch_id) = true
    · refine ⟨overwrite_proof_fields r B, ?_, hB⟩
      simp [Option.map, hc]
    · refine ⟨r, ?_, hr⟩
      simp [Option.map, hc]

theorem process_proved_ids_none (env : ChainEnv) (W : Nat)
    (receipt : TransactionReceipt) (tx : String) (fee : Nat) :
    ∀ (ids : List Nat) (db : List Batch) (a b : Nat) (db' : List Batch) (a' b' j : Nat),
      process_proved_ids env W receipt tx fee (db, a, b) ids = some (db', a', b') →
      get_batch_by_id db j = none → get_batch_by_id db' j = none := by
  intro ids
  induction ids with
  | nil =>
      intro db a b db' a' b' j hrun hj
      obtain ⟨h1, -, -⟩ := Prod.mk.injEq .. ▸ Option.some.inj hrun
      rw [← h1]
      exact hj
  | cons i rest ih =>
      intro db a b db' a' b' j hrun hj
      unfold process_proved_ids at hrun
      cases hstep : process_proved_batch env W receipt tx fee (db, a, b) i with
      | none => rw [hstep] at hrun; simp at hrun
      | some acc₁ =>
          rw [hstep] at hrun
          simp only [Option.bind_eq_bind, Option.some_bind] at hrun
          obtain ⟨db₁, a₁, b₁⟩ := acc₁
          exact ih db₁ a₁ b₁ db' a' b' j hrun (process_proved_batch_none hstep hj)

theorem process_proved_ids_fee_pres (env : ChainEnv) (W : Nat)
    (receipt : TransactionReceipt) (tx : String) (fee : Nat) :
    ∀ (ids : List Nat) (db : List Batch) (a b : Nat) (db' : List Batch) (a' b' j : Nat)
      (r : Batch),
      process_proved_ids env W receipt tx fee (db, a, b) ids = some (db', a', b') →
      get_batch_by_id db j = some r → r.prove_fee = some (Nat.repr fee) →
      ∃ r', get_batch_by_id db' j = some r' ∧ r'.prove_fee = some (Nat.repr fee) := by
  intro ids
  induction ids with
  | nil =>
      intro db a b db' a' b' j r hrun hj hr
      obtain ⟨h1, -, -⟩ := Prod.mk.injEq .. ▸ Option.some.inj hrun
      rw [← h1]
      exact ⟨r, hj, hr⟩
  | cons i rest ih =>
      intro db a b db' a' b' j r hrun hj hr
      unfold process_proved_ids at hrun
      cases hstep : process_proved_batch env W receipt tx fee (db, a, b) i with
      | none => rw [hstep] at hrun; simp at hrun
      | some acc₁ =>
          rw [hstep] at hrun
          simp only [Option.bind_eq_bind, Option.some_bind] at hrun
          obtain ⟨db₁, a₁, b₁⟩ := acc₁
          obtain ⟨r₁, hj₁, hr₁⟩ := process_proved_batch_fee_pres hstep hj hr
          exact ih db₁ a₁ b₁ db' a' b' j r₁ hrun hj₁ hr₁

theorem process_proved_ids_fee (env : ChainEnv) (W : Nat)
    (receipt : TransactionReceipt) (tx : String) (fee : Nat) :
    ∀ (ids : List Nat) (db : List Batch) (a b : Nat) (db' : List Batch) (a' b' : Nat),
      process_proved_ids env W receipt tx fee (db, a, b) ids = some (db', a', b') →
      ∀ j ∈ ids, ∀ r', get_batch_by_id db' j = some r' →
        r'.prove_fee = some (Nat.repr fee) := by
  intro ids
  induction ids with
  | nil =>
      intro db a b db' a' b' hrun j hj
      cases hj
  | cons i rest ih =>
      intro db a b db' a' b' hrun j hj r' hr'
      unfold process_proved_ids at hrun
      cases hstep : process_proved_batch env W receipt tx fee (db, a, b) i with
      | none => rw [hstep] at hrun; simp at hrun
      | some acc₁ =>
      rw [hstep] at hrun
      simp only [Option.bind_eq_bind, Option.some_bind] at hrun
      obtain ⟨db₁, a₁, b₁⟩ := acc₁
      rcases List.mem_cons.mp hj with hji | hjr
      · subst hji
        rcases process_proved_batch_shape hstep with ⟨hnone, rfl⟩ | ⟨B, hB, hupd, rold, hrold, hfee⟩
        · have h₂ : get_batch_by_id db' j = none :=
            process_proved_ids_none env W receipt tx fee rest db₁ a₁ b₁ db' a' b' j hrun hnone
          rw [h₂] at hr'
          cases hr'
        · obtain ⟨r₁, hj₁, hr₁⟩ := process_proved_ids_fee_pres env W receipt tx fee rest
            db₁ a₁ b₁ db' a' b' j rold hrun hrold hfee
          rw [hj₁] at hr'
          cases hr'
          exact hr₁
      · exact ih db₁ a₁ b₁ db' a' b' hrun j hjr r' hr'

/-- C6: for a proof event whose transaction has total fee `F` and which covers
`n = batchIds.length` batch ids (non-empty), every referenced batch found in
the resulting table stores the integer-division share `F / n` as its proof fee,
and the sum of the `n` stored shares, `n * (F / n)`, is at most `F` — the
remainder is dropped. -/
theorem proof_fee_split (env : ChainEnv) (W : Nat) (db : List Batch) (a b : Nat)
    (log : BatchesProvedLog) (db' : List Batch) (a' b' F : Nat)
    (hne : log.batchIds ≠ [])
    (hprice : get_tx_eth_price log.receipt = some F)
    (hrun : process_proved_log env W (db, a, b) log = some (db', a', b')) :
    (∀ id ∈ log.batchIds, ∀ batch', get_batch_by_id db' id = some batch' →
        batch'.prove_fee = some (Nat.repr (F / log.batchIds.length))) ∧
    log.batchIds.length * (F / log.batchIds.length) ≤ F := by
  unfold process_proved_log at hrun
  rw [hprice] at hrun
  simp only [Option.bind_eq_bind, Option.some_bind] at hrun
  have hn0 : log.batchIds.length ≠ 0 := fun h => hne (List.length_eq_zero.mp h)
  have hdiv : chkDiv F log.batchIds.length = some (F / log.batchIds.length) := by
    simp [chkDiv, hn0]
  rw [hdiv] at hrun
  simp only [Option.some_bind] at hrun
  constructor
  · intro id hid batch' hb'
    exact process_proved_ids_fee env W log.receipt log.tx_hash (F / log.batchIds.length)
      log.batchIds db a b db' a' b' hrun id hid batch' hb'
  · rw [Nat.mul_comm]
    exact Nat.div_mul_le_self F log.batchIds.length

theorem proof_fee_split_witness :
    (∀ id ∈ ([1] : List Nat), ∀ batch',
        get_batch_by_id [cexProvedBatch] id = some batch' →
        batch'.prove_fee = some (Nat.repr (3 / ([1] : List Nat).length))) ∧
    ([1] : List Nat).length * (3 / ([1] : List Nat).length) ≤ 3 :=
  proof_fee_split cexEnv 1000 [cexBatch] 0 0
    ⟨[1], "0xTX", ⟨3, 1, none, none, "0xP", some 7⟩⟩ [cexProvedBatch] 1 50 3
    (by decide) (by decide) (by decide)

/-- C10: a proof event whose list of proved batch ids is empty makes the
fee-split divide the transaction fee by zero, so processing the event panics
(`none`) unconditionally; with at least one referenced batch id the checked
division is total and yields the integer quotient. -/
theorem proof_fee_split_requires_nonempty (env : ChainEnv) (W : Nat)
    (acc : List Batch × Nat × Nat) (log : BatchesProvedLog)
    (hempty : log.batchIds = []) :
    process_proved_log env W acc log = none ∧
    ∀ F n, n ≠ 0 → chkDiv F n = some (F / n) := by
  constructor
  · unfold process_proved_log
    cases hp : get_tx_eth_price log.receipt with
    | none => simp
    | some F => simp [hempty, chkDiv]
  · intro F n hn
    simp [chkDiv, hn]

/-- A proof event referencing no batch ids. -/
def emptyProofLog : BatchesProvedLog := ⟨[], "0xTX", cexReceipt⟩

theorem proof_fee_split_requires_nonempty_witness :
    process_proved_log cexEnv 1000 ([], 0, 0) emptyProofLog = none :=
  (proof_fee_split_requires_nonempty cexEnv 1000 ([], 0, 0) emptyProofLog (by decide)).1

/-! ## Proposal processor (`BatchIndexer::index_batch_proposed`) -/

/-- A decoded `BatchProposed` event: the fields of `ITaikoInbox::BatchProposed`
the indexer reads (`meta.batchId`, `meta.proposer`, `meta.proposedAt`,
`info.lastBlockId`, `info.coinbase`, `info.blocks.len()`). -/
structure BatchProposedEvent where
  batchId : Nat
  proposer : String
  proposedAt : Nat
  lastBlockId : Nat
  coinbase : String
  blockCount : Nat
deriving Repr, DecidableEq

/-- A decoded `BatchProposed` log with its transaction hash and receipt. -/
structure ProposedLog where
  event : BatchProposedEvent
  tx_hash : String
  receipt : TransactionReceipt
deriving Repr, DecidableEq

/-- The row built by `DataBase::insert_batch` (db.rs:180-216) from a proposal:
proposal columns set, proof columns null, `is_sent_by_proposer` comparing the
receipt sender with the event coinbase. -/
def mkProposedRow (ev : BatchProposedEvent) (tx_hash sender : String)
    (propose_fee : Nat) : Batch :=
  { batch_id := ev.batchId
    sender := sender
    proposer := ev.proposer
    coinbase := ev.coinbase
    propose_tx := tx_hash
    proposed_at := ev.proposedAt
    last_block_id := ev.lastBlockId
    block_count := ev.blockCount
    propose_fee := Nat.repr propose_fee
    l2_fee_earned := none
    prover := none
    prove_tx := none
    prove_fee := none
    is_sent_by_proposer := sender == ev.coinbase
    is_profitable := none
    is_proved_by_proposer := none }

/-- Whether the table holds a row with that batch id (the sqlite primary-key
uniqueness check behind the duplicate condition). -/
def hasBatch (db : List Batch) (id : Nat) : Bool :=
  db.any (fun r => r.batch_id == id)

/-- `DataBase::insert_batch` (db.rs:180-229): `INSERT` of the new row; a unique
violation on the primary key `batch_id` is logged and swallowed — the call
returns success with the table unchanged. -/
def insert_batch (db : List Batch) (ev : BatchProposedEvent)
    (tx_hash sender : String) (propose_fee : Nat) : List Batch :=
  if hasBatch db ev.batchId then db
  else db ++ [mkProposedRow ev tx_hash sender propose_fee]

/-- The `for log in logs` fold of `index_batch_proposed`
(batch_indexer.rs:134-159): fee computation, running maxima of batch id and
last block id, then the insert. -/
def index_batch_proposed_go : List Batch × Nat × Nat → List ProposedLog →
    Option (List Batch × Nat × Nat)
  | acc, [] => some acc
  | acc, log :: rest => do
      let propose_fee ← get_tx_eth_price log.receipt
      index_batch_proposed_go
        (insert_batch acc.1 log.event log.tx_hash log.receipt.sender propose_fee,
         max acc.2.1 log.event.batchId, max acc.2.2 log.event.lastBlockId) rest

/-- `BatchIndexer::index_batch_proposed` (batch_indexer.rs:117-162) over the
decoded logs of a block range, maxima starting at the `(0, 0)` sentinel. -/
def index_batch_proposed (db : List Batch) (logs : List ProposedLog) :
    Option (List Batch × Nat × Nat) :=
  index_batch_proposed_go (db, 0, 0) logs

/-! ## Indexing orchestrator (`BatchIndexer::run_indexing_loop`) -/

/-- The L1 provider as the loop sees it: the current head
(`get_block_number`) and the decoded logs served for a requested range. -/
structure L1LogSource where
  head : Nat
  proposedLogs : Nat → Nat → List ProposedLog
  provedLogs : Nat → Nat → List BatchesProvedLog

/-- The observable outcome of one pass of the `loop` body of
`run_indexing_loop` (batch_indexer.rs:58-115, up to the sleep): the in-memory
progress after the pass, the inclusive window handed to both processors (when
the head was far enough ahead), and the argument tuple passed to
`update_status`. -/
structure IterationResult where
  indexed_l1_block : Nat
  window : Option (Nat × Nat)
  status_args : Option (Nat × Nat × Nat × Nat × Nat)
deriving Repr, DecidableEq

/-- One iteration of `run_indexing_loop`: `from_block = indexed_l1_block + 1`,
`to_block = from_block + indexing_step`; when `current_block > to_block` the
proposal processor and then the proof processor run over
`[from_block, to_block]`, the progress advances to `to_block` and the
checkpoint update is attempted with the processors' maxima.  A processor
failure panics (`none`). -/
def run_iteration (env : ChainEnv) (l1 : L1LogSource)
    (proving_window indexing_step : Nat) (db : List Batch)
    (indexed_l1_block : Nat) : Option (List Batch × IterationResult) :=
  let current_block := l1.head
  let from_block := indexed_l1_block + 1
  let to_block := from_block + indexing_step
  if current_block > to_block then do
    let (db₁, proposed_batch_id, proposed_block_id) ←
      index_batch_proposed db (l1.proposedLogs from_block to_block)
    let (db₂, proved_batch_id, proved_block_id) ←
      index_batch_proved env proving_window db₁ (l1.provedLogs from_block to_block)
    some (db₂, ⟨to_block, some (from_block, to_block),
      some (to_block, proposed_batch_id, proposed_block_id,
        proved_batch_id, proved_block_id)⟩)
  else
    some (db, ⟨indexed_l1_block, none, none⟩)

/-- An L1 log source with head 100 and no events at all. -/
def quietL1 : L1LogSource := ⟨100, fun _ _ => [], fun _ _ => []⟩

/-- C2 counterexample: with last indexed block 10 and step 5 the iteration
hands the processors the inclusive window [11, 16] and advances the progress
to 16 — not the window [11, 15] ending at `last_indexed + step = 15` that the
claim states. -/
theorem indexing_window_cex :
    run_iteration cexEnv quietL1 1000 5 [] 10 =
      some ([], ⟨16, some (11, 16), some (16, 0, 0, 0, 0)⟩) ∧
    (16 : Nat) ≠ 10 + 5 ∧ ((11, 16) : Nat × Nat) ≠ (10 + 1, 10 + 5) := by
  decide

/-- C2 (amended): on an iteration starting from progress `L` with step `S`,
whenever the head strictly exceeds `L + 1 + S` the same inclusive window
`[L + 1, L + S + 1]` is handed to both processors and the in-memory progress
advances to the window end `L + S + 1`. -/
theorem indexing_window (env : ChainEnv) (l1 : L1LogSource) (W S : Nat)
    (db db' : List Batch) (L : Nat) (res : IterationResult)
    (hhead : L + 1 + S < l1.head)
    (hrun : run_iteration env l1 W S db L = some (db', res)) :
    res.window = some (L + 1, L + S + 1) ∧ res.indexed_l1_block = L + S + 1 := by
  unfold run_iteration at hrun
  dsimp only at hrun
  rw [if_pos hhead] at hrun
  cases hp : index_batch_proposed db (l1.proposedLogs (L + 1) (L + 1 + S)) with
  | none => rw [hp] at hrun; simp at hrun
  | some acc₁ =>
  rw [hp] at hrun
  simp only [Option.bind_eq_bind, Option.some_bind] at hrun
  obtain ⟨db₁, p1, p2⟩ := acc₁
  cases hv : index_batch_proved env W db₁ (l1.provedLogs (L + 1) (L + 1 + S)) with
  | none => rw [hv] at hrun; simp at hrun
  | some acc₂ =>
  rw [hv] at hrun
  simp only [Option.some_bind] at hrun
  obtain ⟨db₂, v1, v2⟩ := acc₂
  obtain ⟨-, hres⟩ := Prod.mk.injEq .. ▸ Option.some.inj hrun
  have harith : L + 1 + S = L + S + 1 := by omega
  rw [← hres, harith]
  exact ⟨rfl, rfl⟩

theorem indexing_window_witness :
    (⟨16, some (11, 16), some (16, 0, 0, 0, 0)⟩ : IterationResult).window =
      some (10 + 1, 10 + 5 + 1) ∧
    (⟨16, some (11, 16), some (16, 0, 0, 0, 0)⟩ : IterationResult).indexed_l1_block =
      10 + 5 + 1 :=
  indexing_window cexEnv quietL1 1000 5 [] []
    10 ⟨16, some (11, 16), some (16, 0, 0, 0, 0)⟩ (by decide) (by decide)

theorem insert_batch_duplicate {db : List Batch} {ev : BatchProposedEvent}
    {tx s : String} {fee : Nat} (h : hasBatch db ev.batchId = true) :
    insert_batch db ev tx s fee = db := by
  simp [insert_batch, h]

theorem hasBatch_insert_mono {db : List Batch} {i : Nat}
    (ev : BatchProposedEvent) (tx s : String) (fee : Nat)
    (h : hasBatch db i = true) :
    hasBatch (insert_batch db ev tx s fee) i = true := by
  unfold insert_batch
  split
  · exact h
  · unfold hasBatch at h ⊢
    simp [List.any_append, h]

theorem hasBatch_insert_self (db : List Batch) (ev : BatchProposedEvent)
    (tx s : String) (fee : Nat) :
    hasBatch (insert_batch db ev tx s fee) ev.batchId = true := by
  unfold insert_batch
  split
  case isTrue hc => exact hc
  case isFalse hc =>
    unfold hasBatch
    rw [List.any_append]
    simp [mkProposedRow]

theorem index_batch_proposed_go_hasBatch :
    ∀ (logs : List ProposedLog) (db : List Batch) (a b : Nat)
      (db' : List Batch) (a' b' i : Nat),
      index_batch_proposed_go (db, a, b) logs = some (db', a', b') →
      hasBatch db i = true → hasBatch db' i = true := by
  intro logs
  induction logs with
  | nil =>
      intro db a b db' a' b' i hrun h
      obtain ⟨h1, -, -⟩ := Prod.mk.injEq .. ▸ Option.some.inj hrun
      rw [← h1]
      exact h
  | cons log rest ih =>
      intro db a b db' a' b' i hrun h
      unfold index_batch_proposed_go at hrun
      cases hfee : get_tx_eth_price log.receipt with
      | none => rw [hfee] at hrun; simp at hrun
      | some fee =>
          rw [hfee] at hrun
          simp only [Option.bind_eq_bind, Option.some_bind] at hrun
          exact ih _ _ _ db' a' b' i hrun (hasBatch_insert_mono log.event log.tx_hash
            log.receipt.sender fee h)

theorem index_batch_proposed_go_covers :
    ∀ (logs : List ProposedLog) (db : List Batch) (a b : Nat)
      (db' : List Batch) (a' b' : Nat),
      index_batch_proposed_go (db, a, b) logs = some (db', a', b') →
      ∀ log ∈ logs, hasBatch db' log.event.batchId = true := by
  intro logs
  induction logs with
  | nil =>
      intro db a b db' a' b' hrun log hlog
      cases hlog
  | cons lg rest ih =>
      intro db a b db' a' b' hrun log hlog
      unfold index_batch_proposed_go at hrun
      cases hfee : get_tx_eth_price lg.receipt with
      | none => rw [hfee] at hrun; simp at hrun
      | some fee =>
      rw [hfee] at hrun
      simp only [Option.bind_eq_bind, Option.some_bind] at hrun
      rcases List.mem_cons.mp hlog with hl | hl
      · subst hl
        exact index_batch_proposed_go_hasBatch rest _ _ _ db' a' b' log.event.batchId hrun
          (hasBatch_insert_self db log.event log.tx_hash log.receipt.sender fee)
      · exact ih _ _ _ db' a' b' hrun log hl

theorem index_batch_proposed_go_stable :
    ∀ (logs : List ProposedLog) (db : List Batch) (a b : Nat)
      (db' : List Batch) (a' b' : Nat) (db₂ : List Batch),
      index_batch_proposed_go (db, a, b) logs = some (db', a', b') →
      (∀ log ∈ logs, hasBatch db₂ log.event.batchId = true) →
      index_batch_proposed_go (db₂, a, b) logs = some (db₂, a', b') := by
  intro logs
  induction logs with
  | nil =>
      intro db a b db' a' b' db₂ hrun hcov
      unfold index_batch_proposed_go at hrun ⊢
      injection hrun with h
      injection h with h1 h23
      injection h23 with h2 h3
      rw [← h2, ← h3]
  | cons log rest ih =>
      intro db a b db' a' b' db₂ hrun hcov
      unfold index_batch_proposed_go at hrun ⊢
      cases hfee : get_tx_eth_price log.receipt with
      | none => rw [hfee] at hrun; simp at hrun
      | some fee =>
      rw [hfee] at hrun
      simp only [Option.bind_eq_bind, Option.some_bind] at hrun ⊢
      have hdup : insert_batch db₂ log.event log.tx_hash log.receipt.sender fee = db₂ :=
        insert_batch_duplicate (hcov log (List.mem_cons_self log rest))
      rw [hdup]
      exact ih _ _ _ db' a' b' db₂ hrun
        (fun l hl => hcov l (List.mem_cons_of_mem log hl))

/-- C3: an insert whose batch id already exists in the table succeeds (the
duplicate is swallowed, not propagated) and leaves the table unchanged; hence
running a proposal scan a second time over the logs of an already-indexed range
returns exactly the table (and maxima) of the first run. -/
theorem insert_duplicate_idempotent (db : List Batch) (ev : BatchProposedEvent)
    (tx s : String) (fee : Nat) (db₀ : List Batch) (logs : List ProposedLog)
    (db' : List Batch) (a' b' : Nat)
    (hdup : hasBatch db ev.batchId = true)
    (hrun : index_batch_proposed db₀ logs = some (db', a', b')) :
    insert_batch db ev tx s fee = db ∧
    index_batch_proposed db' logs = some (db', a', b') := by
  refine ⟨insert_batch_duplicate hdup, ?_⟩
  unfold index_batch_proposed at hrun ⊢
  exact index_batch_proposed_go_stable logs db₀ 0 0 db' a' b' db' hrun
    (index_batch_proposed_go_covers logs db₀ 0 0 db' a' b' hrun)

/-- A concrete proposal event, and its log. -/
def propEvent : BatchProposedEvent := ⟨7, "0xB", 100, 50, "0xC", 5⟩

def propLog : ProposedLog := ⟨propEvent, "0xPTX", cexReceipt⟩

theorem insert_duplicate_idempotent_witness :
    insert_batch [mkProposedRow propEvent "0xPTX" "0xP" 1] propEvent "0xPTX" "0xP" 1 =
      [mkProposedRow propEvent "0xPTX" "0xP" 1] ∧
    index_batch_proposed [mkProposedRow propEvent "0xPTX" "0xP" 1] [propLog] =
      some ([mkProposedRow propEvent "0xPTX" "0xP" 1], 7, 50) :=
  insert_duplicate_idempotent [mkProposedRow propEvent "0xPTX" "0xP" 1] propEvent
    "0xPTX" "0xP" 1 [] [propLog] [mkProposedRow propEvent "0xPTX" "0xP" 1] 7 50
    (by decide) (by decide)

/-! ## Accounting aggregation (graphql `models/accounting.rs`) -/

inductive AccountingOperation where
  | Debit
  | Credit
deriving Repr, DecidableEq

/-- Per-address accumulator (`struct AddressInfo`): running `U256` total and
the collected batches. -/
structure AddressInfo where
  total_fee : Nat
  batches : List Batch
deriving Repr, DecidableEq

/-- `AddressInfo::add_batch` (accounting.rs:49-52): `total_fee += fee` with the
checked `U256` addition, then push the batch. -/
def AddressInfo.add_batch (info : AddressInfo) (fee : Nat) (batch : Batch) :
    Option AddressInfo := do
  let total ← chkAdd U256_MOD info.total_fee fee
  some ⟨total, info.batches ++ [batch]⟩

/-- The aggregation state (`struct AccountingList`): overall total and the
per-address map (`HashMap<String, AddressInfo>`, modelled as an association
list keyed by address). -/
structure AccountingList where
  total_fee : Nat
  addresses : List (String × AddressInfo)
deriving Repr, DecidableEq

/-- `AccountingList::new`. -/
def AccountingList.empty : AccountingList := ⟨0, []⟩

/-- The ledger key of `AccountingList::add_batch` (accounting.rs:90-93): debit
entries are keyed by the batch's coinbase, credit entries by its proposer. -/
def accountingKey (operation : AccountingOperation) (batch : Batch) : String :=
  match operation with
  | .Debit => batch.coinbase
  | .Credit => batch.proposer

/-- `self.addresses.entry(key).or_insert_with(AddressInfo::new).add_batch(…)`
on the association-list model of the hash map. -/
def entryAdd : List (String × AddressInfo) → String → Nat → Batch →
    Option (List (String × AddressInfo))
  | [], key, fee, batch => do
      let info ← AddressInfo.add_batch ⟨0, []⟩ fee batch
      some [(key, info)]
  | (k, info) :: rest, key, fee, batch =>
      if k == key then do
        let info' ← AddressInfo.add_batch info fee batch
        some ((k, info') :: rest)
      else do
        let rest' ← entryAdd rest key fee batch
        some ((k, info) :: rest')

/-- `AccountingList::add_batch` (accounting.rs:83-101): parse the batch's
`propose_fee` as a decimal `U256` (failure is surfaced as an error), pick the
ledger key by operation, add the fee to the overall total and to the keyed
entry. -/
def AccountingList.add_batch (list : AccountingList)
    (operation : AccountingOperation) (batch : Batch) : Option AccountingList := do
  let fee ← parseDecimal U256_MOD batch.propose_fee
  let key := accountingKey operation batch
  let total ← chkAdd U256_MOD list.total_fee fee
  let addresses ← entryAdd list.addresses key fee batch
  some ⟨total, addresses⟩

/-- The `try_for_each` over the selected batches in `get_accounting_list`
(get_accounting_list.rs:36-38). -/
def add_batches (list : AccountingList) (operation : AccountingOperation) :
    List Batch → Option AccountingList
  | [] => some list
  | batch :: rest => do
      let list' ← AccountingList.add_batch list operation batch
      add_batches list' operation rest

/-- `wei_to_eth_string` (accounting.rs:109-125): fixed 18-fractional-digit
decimal rendering of a wei amount.  The Rust `split_at` is byte-based; the
digits are ASCII, so the char-based split here agrees with it. -/
def wei_to_eth_string (wei : Nat) : String :=
  let wei_str := Nat.repr wei
  let len := wei_str.length
  if len ≤ 18 then
    "0." ++ String.mk (List.replicate (18 - len) '0') ++ wei_str ++ " ETH"
  else
    String.mk (wei_str.data.take (len - 18)) ++ "." ++
      String.mk (wei_str.data.drop (len - 18)) ++ " ETH"

/-- The fee a batch contributes: its parsed `propose_fee` (the aggregation only
succeeds when every parse succeeds, so the default is never taken on a
successful run). -/
def feeOf (batch : Batch) : Nat := (parseDecimal U256_MOD batch.propose_fee).getD 0

/-- The total stored for an address in the per-address map. -/
def addrTotal : List (String × AddressInfo) → String → Nat
  | [], _ => 0
  | (k, info) :: rest, a => if k == a then info.total_fee else addrTotal rest a

theorem entryAdd_total :
    ∀ (l : List (String × AddressInfo)) (key : String) (fee : Nat) (batch : Batch)
      (l' : List (String × AddressInfo)),
      entryAdd l key fee batch = some l' →
      ∀ a, addrTotal l' a =
        if key == a then addrTotal l a + fee else addrTotal l a := by
  intro l
  induction l with
  | nil =>
      intro key fee batch l' h a
      unfold entryAdd AddressInfo.add_batch at h
      cases hc : chkAdd U256_MOD 0 fee with
      | none => rw [hc] at h; simp at h
      | some t =>
      rw [hc] at h
      simp only [Option.bind_eq_bind, Option.some_bind] at h
      cases h
      obtain ⟨ht, -⟩ := chkAdd_some hc
      by_cases hk : (key == a) = true
      · simp [addrTotal, hk, ht]
      · simp [addrTotal, hk, ht]
  | cons e rest ih =>
      intro key fee batch l' h a
      obtain ⟨k, info⟩ := e
      unfold entryAdd at h
      by_cases hk : (k == key) = true
      · rw [if_pos hk] at h
        unfold AddressInfo.add_batch at h
        cases hc : chkAdd U256_MOD info.total_fee fee with
        | none => rw [hc] at h; simp at h
        | some t =>
        rw [hc] at h
        simp only [Option.bind_eq_bind, Option.some_bind] at h
        cases h
        obtain ⟨ht, -⟩ := chkAdd_some hc
        have hkey : k = key := eq_of_beq hk
        subst hkey
        by_cases ha : (k == a) = true
        · simp [addrTotal, ha, ht]
        · simp [addrTotal, ha]
      · rw [if_neg hk] at h
        cases hr : entryAdd rest key fee batch with
        | none => rw [hr] at h; simp at h
        | some rest' =>
        rw [hr] at h
        simp only [Option.bind_eq_bind, Option.some_bind] at h
        cases h
        have hrec := ih key fee batch rest' hr a
        by_cases ha : (k == a) = true
        · have hka : k = a := eq_of_beq ha
          subst hka
          have hne : ¬ (key == k) = true := by
            intro hx
            exact hk (by simp [eq_of_beq hx])
          simp [addrTotal, ha, hne]
        · simp [addrTotal, ha, hrec]

theorem add_batches_total :
    ∀ (bs : List Batch) (list : AccountingList) (operation : AccountingOperation)
      (res : AccountingList),
      add_batches list operation bs = some res →
      res.total_fee = list.total_fee + (bs.map feeOf).sum ∧
      ∀ a, addrTotal res.addresses a =
        addrTotal list.addresses a +
          ((bs.filter (fun batch => accountingKey operation batch == a)).map feeOf).sum := by
  intro bs
  induction bs with
  | nil =>
      intro list operation res h
      unfold add_batches at h
      cases h
      exact ⟨by simp, fun a => by simp⟩
  | cons batch rest ih =>
      intro list operation res h
      unfold add_batches AccountingList.add_batch at h
      cases hp : parseDecimal U256_MOD batch.propose_fee with
      | none => rw [hp] at h; simp at h
      | some fee =>
      rw [hp] at h
      simp only [Option.bind_eq_bind, Option.some_bind] at h
      cases hc : chkAdd U256_MOD list.total_fee fee with
      | none => rw [hc] at h; simp at h
      | some total =>
      rw [hc] at h
      simp only [Option.some_bind] at h
      cases he : entryAdd list.addresses (accountingKey operation batch) fee batch with
      | none => rw [he] at h; simp at h
      | some addrs =>
      rw [he] at h
      simp only [Option.some_bind] at h
      obtain ⟨htotal, -⟩ := chkAdd_some hc
      obtain ⟨ht, hadds⟩ := ih ⟨total, addrs⟩ operation res h
      have hfee : feeOf batch = fee := by
        simp [feeOf, hp]
      constructor
      · rw [ht]
        simp only [List.map_cons, List.sum_cons, htotal, hfee]
        omega
      · intro a
        have hent := entryAdd_total list.addresses (accountingKey operation batch)
          fee batch addrs he a
        rw [hadds a]
        by_cases hk : (accountingKey operation batch == a) = true
        · rw [hent, if_pos hk,
            @List.filter_cons_of_pos Batch (fun b => accountingKey operation b == a)
              batch rest hk]
          simp only [List.map_cons, List.sum_cons, hfee]
          omega
        · rw [hent, if_neg hk,
            @List.filter_cons_of_neg Batch (fun b => accountingKey operation b == a)
              batch rest hk]

theorem wei_to_eth_string_frac (w : Nat) :
    ∃ ip fp : List Char, (wei_to_eth_string w).data =
      ip ++ ['.'] ++ fp ++ (" ETH".data) ∧ fp.length = 18 := by
  unfold wei_to_eth_string
  by_cases hlen : (Nat.repr w).length ≤ 18
  · rw [if_pos hlen]
    refine ⟨['0'], List.replicate (18 - (Nat.repr w).length) '0' ++ (Nat.repr w).data,
      ?_, ?_⟩
    · simp [String.data_append, List.append_assoc]
    · have hdata : (Nat.repr w).data.length = (Nat.repr w).length := rfl
      simp [List.length_append, List.length_replicate, hdata]
      omega
  · rw [if_neg hlen]
    refine ⟨(Nat.repr w).data.take ((Nat.repr w).length - 18),
      (Nat.repr w).data.drop ((Nat.repr w).length - 18), ?_, ?_⟩
    · simp [String.data_append, List.append_assoc]
    · have hdata : (Nat.repr w).data.length = (Nat.repr w).length := rfl
      simp [List.length_drop, hdata]
      omega

/-- C9: when the accounting aggregation succeeds on a list of batches, the
overall total is the exact unsigned wide-integer sum of the parsed
`propose_fee` values, each per-address total is the exact sum over the batches
keyed to that address (coinbase for debit, proposer for credit), and every
rendered amount is a decimal string with exactly 18 fractional digits. -/
theorem accounting_totals (operation : AccountingOperation) (bs : List Batch)
    (res : AccountingList)
    (hrun : add_batches AccountingList.empty operation bs = some res) :
    res.total_fee = (bs.map feeOf).sum ∧
    (∀ a, addrTotal res.addresses a =
      ((bs.filter (fun batch => accountingKey operation batch == a)).map feeOf).sum) ∧
    ∀ w, ∃ ip fp : List Char, (wei_to_eth_string w).data =
      ip ++ ['.'] ++ fp ++ (" ETH".data) ∧ fp.length = 18 := by
  obtain ⟨ht, ha⟩ := add_batches_total bs AccountingList.empty operation res hrun
  refine ⟨by simpa [AccountingList.empty] using ht,
    fun a => by simpa [AccountingList.empty, addrTotal] using ha a,
    wei_to_eth_string_frac⟩

/-- Two batches crediting the same proposer "0xB" with `propose_fee` of 1 ETH
and 2 ETH in wei. -/
def accBatch1 : Batch :=
  ⟨11, "0xA", "0xB", "0xC", "0xT1", 100, 50, 5, "1000000000000000000",
    none, none, none, none, false, none, none⟩

def accBatch2 : Batch :=
  ⟨12, "0xA", "0xB", "0xC", "0xT2", 100, 50, 5, "2000000000000000000",
    none, none, none, none, false, none, none⟩

theorem accounting_totals_witness :
    ((⟨3000000000000000000, [("0xB", ⟨3000000000000000000, [accBatch1, accBatch2]⟩)]⟩ :
        AccountingList).total_fee = ([accBatch1, accBatch2].map feeOf).sum ∧
      (∀ a, addrTotal
          (⟨3000000000000000000,
            [("0xB", ⟨3000000000000000000, [accBatch1, accBatch2]⟩)]⟩ :
              AccountingList).addresses a =
        (([accBatch1, accBatch2].filter
            (fun batch => accountingKey AccountingOperation.Credit batch == a)).map
              feeOf).sum) ∧
      ∀ w, ∃ ip fp : List Char, (wei_to_eth_string w).data =
        ip ++ ['.'] ++ fp ++ (" ETH".data) ∧ fp.length = 18) ∧
    wei_to_eth_string 3000000000000000000 = "3.000000000000000000 ETH" :=
  ⟨accounting_totals AccountingOperation.Credit [accBatch1, accBatch2]
      ⟨3000000000000000000, [("0xB", ⟨3000000000000000000, [accBatch1, accBatch2]⟩)]⟩
      (by decide),
   by decide⟩

end BatchTracker
